import Mathlib

/-!
Verification of the documentation aggregation script (`scripts/build_docs.py`).

The script is a sequential orchestration pipeline: it clones configured
repositories, normalizes their documentation sources (stripping a fixed set of
URL substrings from text files), invokes the Sphinx builder per repository,
then attempts to write a landing page — a write that fails with
`FileNotFoundError` when no build was ever attempted, since only
`build_sphinx_docs` creates the page's parent directory — and exits non-zero
exactly when no repository built.

This file gives a shallow embedding of the script's data model and operations:
* text content read with a lossy decoder (`errors='ignore'`) is modelled by
  `Byteish` streams, where each unit is either a decodable character or an
  undecodable byte;
* `str.replace(u, "")` is modelled by `replaceDel` (left-to-right removal of
  non-overlapping occurrences);
* the per-repository pipeline (`fetch_repository`, `process_sphinx_docs`,
  `build_sphinx_docs`, `create_index_page`, `build_all`) is modelled over an
  explicit `World` of external outcomes (clone result, directory presence,
  builder exit status, clock).
-/

/-- A unit of raw file content as seen by Python's text reader: either a
character that decodes, or an undecodable byte (identified by its value). -/
inductive Byteish where
  | ch (c : Char)
  | und (b : Nat)
deriving DecidableEq

/-- Content of a file on disk, as a stream of decodable/undecodable units. -/
abbrev RawContent := List Byteish

/-- Reading a file with `open(..., encoding='utf-8', errors='ignore')`:
undecodable bytes are silently dropped, decodable characters are kept.
This is the reader used for `.rst`/`.md` files in `process_sphinx_docs`. -/
def decodeIgnore (raw : RawContent) : List Char :=
  raw.filterMap (fun u => match u with
    | .ch c => some c
    | .und _ => none)

/-- Reading with `errors='replace'` (what the spec describes): undecodable
bytes become the substitution character U+FFFD. The source does NOT use this;
it is stated only to compare against the spec's wording. -/
def decodeReplace (raw : RawContent) : List Char :=
  raw.map (fun u => match u with
    | .ch c => c
    | .und _ => '�')

/-- Writing a decoded text back out (`f_out.write(...)` with utf-8): every
character round-trips to a decodable unit. -/
def encodeText (cs : List Char) : RawContent :=
  cs.map Byteish.ch

/-- Fuel-indexed engine for Python's `content.replace(u, "")`: scan left to
right; at each position, if `u` matches, skip it (removing the occurrence) and
continue after it, otherwise keep the character. The fuel is an upper bound on
the number of characters consumed; callers pass `t.length`. -/
def stripFuel (u : List Char) : Nat → List Char → List Char
  | 0, t => t
  | _ + 1, [] => []
  | fuel + 1, c :: ts =>
    if u.isPrefixOf (c :: ts) then stripFuel u fuel (ts.drop (u.length - 1))
    else c :: stripFuel u fuel ts

/-- Python's `content.replace(u, "")`: removes the leftmost non-overlapping
occurrences of `u` in one pass (for empty `u`, `str.replace` with an empty
replacement returns the content unchanged). -/
def replaceDel (u t : List Char) : List Char :=
  if u = [] then t else stripFuel u t.length t

/-- First entry the source intends to strip (`build_docs.py` line 87). -/
def rseries_url : String :=
  "https://clouddocs.f5.com/training/community/rseries-training/html/"

/-- Second entry the source intends to strip (`build_docs.py` line 88). -/
def velos_url : String :=
  "https://clouddocs.f5.com/training/community/velos-training/html/"

/-- Modelled from the spec: the source's list literal (`build_docs.py` lines
86-89) joins the two URL string literals with a stray `.` token, which is a
Python syntax error, so the list as written never evaluates.  The spec directs
that the intended semantics is "a list of two or more independent literal URL
substrings, each stripped independently"; this definition is that intended
two-element list, in source order. -/
def urls_to_remove : List (List Char) :=
  [rseries_url.data, velos_url.data]

/-- `preprocess_file_content` (`build_docs.py` lines 81-92): sequentially
replace each configured substring with the empty string. -/
def preprocess_file_content (content : List Char) : List Char :=
  urls_to_remove.foldl (fun c u => replaceDel u c) content

/-! ### The normalizer's view of the filesystem -/

/-- `pathlib.Path.suffix`: the extension of the final path component — the
substring from the last dot, empty when there is no dot, when the only dot is
leading (hidden files), or when the dot is trailing. -/
def pathSuffix (name : String) : String :=
  let ext := name.data.reverse.takeWhile (fun c => c ≠ '.')
  if ext.length + 1 < name.data.length ∧ 0 < ext.length then
    ⟨'.' :: ext.reverse⟩
  else ""

/-- A directory entry as `process_sphinx_docs` sees it: a file with raw
content, or a subdirectory with its own entries. -/
inductive FsNode where
  | file (content : RawContent)
  | dir (entries : List (String × FsNode))

/-- One iteration of the copy loop in `process_sphinx_docs` (`build_docs.py`
lines 103-115): `.rst`/`.md` files are read with the lossy decoder,
transformed, and rewritten; `.txt` files are copied as-is (`shutil.copy2`);
subdirectories other than `_build` and `__pycache__` are copied recursively in
full (`shutil.copytree`); anything else is skipped. -/
def processEntry : String × FsNode → Option (String × FsNode)
  | (name, FsNode.file c) =>
    if pathSuffix name ∈ [".rst", ".md"] then
      some (name, FsNode.file (encodeText (preprocess_file_content (decodeIgnore c))))
    else if pathSuffix name ∈ [".txt"] then
      some (name, FsNode.file c)
    else none
  | (name, FsNode.dir entries) =>
    if name ∉ ["_build", "__pycache__"] then some (name, FsNode.dir entries)
    else none

/-- The synthesized `conf.py` written by `create_basic_conf` (`build_docs.py`
lines 122-150). -/
def conf_content (repo_name : String) : String :=
  "# Configuration file for " ++ repo_name ++ "\nproject = \x27" ++ repo_name ++
  "\x27\n\nextensions = [\n    \x27sphinx.ext.autodoc\x27,\n    \x27sphinx.ext.viewcode\x27,\n    \x27sphinx.ext.todo\x27,\n]\n\ntemplates_path = [\x27_templates\x27]\nexclude_patterns = [\x27_build\x27, \x27Thumbs.db\x27, \x27.DS_Store\x27]\n\nhtml_theme = \x27shibuya\x27\n#html_theme = \x27basic\x27\nhtml_title = project\nhtml_short_title = project\nhtml_show_sourcelink = False\nhtml_show_sphinx = False\nhtml_show_copyright = True\n\nhtml_static_path = [\x27_static\x27]\n"

/-- `process_sphinx_docs` (`build_docs.py` lines 94-120): copy/transform the
top-level entries of the documentation directory into the per-repository
target, then write the synthesized `conf.py` (last, overwriting). -/
def process_sphinx_docs (docEntries : List (String × FsNode))
    (repo_name : String) : List (String × FsNode) :=
  docEntries.filterMap processEntry ++
    [("conf.py", FsNode.file (encodeText (conf_content repo_name).data))]

/-! ### Orchestration: configuration, fetch, build, index page -/

/-- One repository descriptor from `repos.yaml`: required `name` and `url`;
`dir` and `type` may be omitted (the script reads them with
`repo_config.get(..., default)` at each use site). -/
structure RepoConfig where
  name : String
  url : String
  dir : Option String := none
  type : Option String := none

/-- The external collaborators of one run: whether `git` can clone a given
repository, whether its configured documentation subdirectory exists after the
clone, whether `sphinx-build` exits 0 for it, and the output of `date`. -/
structure World where
  cloneOk : RepoConfig → Bool
  docDirExists : RepoConfig → Bool
  sphinxExit0 : RepoConfig → Bool
  now : String

/-- `git.Repo.clone_from(repo_url, repo_path, depth=1)`: an external call that
either succeeds or raises (network error, invalid URL, auth failure). -/
def clone_from (w : World) (r : RepoConfig) : Except String Unit :=
  if w.cloneOk r then Except.ok () else Except.error "clone failed"

/-- `fetch_repository` (`build_docs.py` lines 53-79): clone into
`_temp/{name}`; the `try/except` turns a clone exception into a logged error
and `None`; after a successful clone, a missing documentation subdirectory is
a logged warning and `None`; otherwise the path to the subdirectory. -/
def fetch_repository (w : World) (r : RepoConfig) : Option String :=
  match clone_from w r with
  | Except.error _ => none
  | Except.ok () =>
    let doc_path := "_temp/" ++ r.name ++ "/" ++ r.dir.getD "docs"
    if w.docDirExists r then some doc_path else none

/-- `build_sphinx_docs` (`build_docs.py` lines 152-180): create
`_build/html/{name}` (always, before invoking the builder), run
`sphinx-build`; a non-zero exit or an invocation exception is caught and
reported as `false`. -/
def build_sphinx_docs (w : World) (r : RepoConfig) : Bool :=
  w.sphinxExit0 r

/-- The result of one iteration of the repository loop in `build_all`. -/
inductive Outcome where
  | fetchFailed
  | builtOk
  | buildFailed
  | unsupported
deriving DecidableEq

/-- One iteration of the loop in `build_all` (`build_docs.py` lines 294-312):
fetch; on failure log and continue; for type "sphinx" (the default) normalize
and build, crediting a success only on a successful build; for any other type
log unsupported and continue. -/
def processRepo (w : World) (r : RepoConfig) : Outcome :=
  match fetch_repository w r with
  | none => Outcome.fetchFailed
  | some _ =>
    if r.type.getD "sphinx" = "sphinx" then
      if build_sphinx_docs w r then Outcome.builtOk else Outcome.buildFailed
    else Outcome.unsupported

/-- The static head of the landing page (`build_docs.py` lines 186-254). -/
def indexHeader : String :=
  "<!DOCTYPE html>\n<html lang=\"en\">\n<head>\n    <meta charset=\"UTF-8\">\n    <meta name=\"viewport\" content=\"width=device-width, initial-scale=1.0\">\n    <title>Documentation Hub</title>\n    <style>\n        body \x7b\n            font-family: -apple-system, BlinkMacSystemFont, \x27Segoe UI\x27, Roboto, sans-serif;\n            line-height: 1.6;\n            color: #333;\n            max-width: 800px;\n            margin: 0 auto;\n            padding: 20px;\n            background-color: #f5f5f5;\n        \x7d\n        .container \x7b\n            background: white;\n            padding: 30px;\n            border-radius: 8px;\n            box-shadow: 0 2px 10px rgba(0,0,0,0.1);\n        \x7d\n        h1 \x7b\n            color: #2c3e50;\n            border-bottom: 3px solid #3498db;\n            padding-bottom: 10px;\n        \x7d\n        .repo-list \x7b\n            list-style: none;\n            padding: 0;\n        \x7d\n        .repo-item \x7b\n            margin: 15px 0;\n            padding: 15px;\n            background: #f8f9fa;\n            border-left: 4px solid #3498db;\n            border-radius: 4px;\n        \x7d\n        .repo-item a \x7b\n            text-decoration: none;\n            color: #2c3e50;\n            font-weight: 500;\n            font-size: 1.1em;\n        \x7d\n        .repo-item a:hover \x7b\n            color: #3498db;\n        \x7d\n        .repo-description \x7b\n            color: #666;\n            margin-top: 5px;\n            font-size: 0.9em;\n        \x7d\n        .footer \x7b\n            text-align: center;\n            margin-top: 30px;\n            padding-top: 20px;\n            border-top: 1px solid #ddd;\n            color: #666;\n            font-size: 0.9em;\n        \x7d\n    </style>\n</head>\n<body>\n    <div class=\"container\">\n        <h1>📚 Documentation Hub</h1>\n        <p>Welcome to the aggregated documentation site. Choose a documentation set to explore:</p>\n        \n        <ul class=\"repo-list\">\n"

/-- One repository entry of the landing page (`build_docs.py` lines 256-265).
Note the annotation default: `repo.get('type', 'unknown')`. -/
def repoEntryHtml (repo : RepoConfig) : String :=
  "\n            <li class=\"repo-item\">\n                " ++
    ("<a href=\"" ++ repo.name ++ "/index.html\">" ++ repo.name ++ "</a>") ++
    ("\n                <div class=\"repo-description\">" ++
      ("Type: " ++ repo.type.getD "unknown") ++ "</div>\n            </li>\n")

/-- The `html_content +=` accumulation loop over `self.config['repos']`. -/
def repoListHtml : List RepoConfig → String
  | [] => ""
  | r :: rs => repoEntryHtml r ++ repoListHtml rs

/-- Closing markup of the landing page, up to the timestamp
(`build_docs.py` lines 267-272). -/
def indexFooterA : String :=
  "\n        </ul>\n        \n        <div class=\"footer\">\n            <p>Documentation built and deployed automatically via GitHub Actions</p>\n            <p>Last updated: "

/-- Closing markup of the landing page, after the timestamp
(`build_docs.py` lines 272-277). -/
def indexFooterB : String :=
  "</p>\n        </div>\n    </div>\n</body>\n</html>\n"

/-- `create_index_page` (`build_docs.py` lines 182-281): the landing page
written to `_build/html/index.html`, listing every configured repository and
embedding the `date` timestamp. -/
def create_index_page (repos : List RepoConfig) (now : String) : String :=
  indexHeader ++ repoListHtml repos ++ indexFooterA ++ now ++ indexFooterB

/-- Whether some repository reached `build_sphinx_docs` during the run —
i.e. whether `_build/html` exists when the landing page is written.
`clean_directories` recreates `_build` empty at the start of every run, and
the only creator of `_build/html` is `build_sphinx_docs`'s
`build_path.mkdir(parents=True, ...)` (`build_docs.py` line 157), invoked
exactly when the fetch succeeded and the declared type is "sphinx". -/
def htmlDirCreated (w : World) (repos : List RepoConfig) : Bool :=
  repos.any (fun r =>
    (fetch_repository w r).isSome && decide (r.type.getD "sphinx" = "sphinx"))

/-- Observable results of one run of `build_all` (`build_docs.py` lines
283-321): per-repository outcomes, the success/total counters, the landing
page write (`create_index_page` opens `_build/html/index.html` without
creating the parent directory, so the write raises `FileNotFoundError` —
`Except.error` here — when `_build/html` was never created), the process exit
code (1 on the uncaught exception, else `sys.exit(1)` iff zero successes,
else 0), and which `_build/html/{name}` directories were created (exactly
those for which `build_sphinx_docs` was invoked). -/
structure RunResult where
  outcomes : List (RepoConfig × Outcome)
  success_count : Nat
  total_count : Nat
  indexPage : Except String String
  exitCode : Nat
  createdHtmlDirs : List String

/-- `build_all` (`build_docs.py` lines 283-321). -/
def build_all (w : World) (repos : List RepoConfig) : RunResult :=
  { outcomes := repos.map (fun r => (r, processRepo w r))
    success_count := repos.countP (fun r => decide (processRepo w r = Outcome.builtOk))
    total_count := repos.length
    indexPage :=
      if htmlDirCreated w repos then Except.ok (create_index_page repos w.now)
      else Except.error "FileNotFoundError: _build/html/index.html"
    exitCode :=
      if htmlDirCreated w repos then
        (if repos.countP (fun r => decide (processRepo w r = Outcome.builtOk)) = 0
         then 1 else 0)
      else 1
    createdHtmlDirs :=
      (repos.filter (fun r =>
        (fetch_repository w r).isSome && decide (r.type.getD "sphinx" = "sphinx"))).map
        (fun r => "_build/html/" ++ r.name) }

/-! ### Substring occurrence in the generated page -/

/-- `needle` occurs as a contiguous substring of `hay`. -/
def strOccurs (needle hay : String) : Prop :=
  needle.data <:+: hay.data

instance strOccursDecidable (n h : String) : Decidable (strOccurs n h) :=
  List.decidableInfix n.data h.data


/-! ### Lemmas about the replacement pass -/

theorem stripFuel_length_le (u : List Char) :
    ∀ fuel t, (stripFuel u fuel t).length ≤ t.length := by
  intro fuel
  induction fuel with
  | zero => intro t; simp [stripFuel]
  | succ f ih =>
    intro t
    match t with
    | [] => simp [stripFuel]
    | c :: ts =>
      simp only [stripFuel]
      by_cases h : u.isPrefixOf (c :: ts)
      · simp only [h, if_pos]
        calc (stripFuel u f (ts.drop (u.length - 1))).length
            ≤ (ts.drop (u.length - 1)).length := ih _
          _ ≤ ts.length := by simp [List.length_drop]
          _ ≤ (c :: ts).length := by simp
      · simp only [h]
        simp only [if_neg, List.length_cons]
        exact Nat.succ_le_succ (ih ts)

theorem stripFuel_fuel_irrel (u : List Char) :
    ∀ f g t, t.length ≤ f → t.length ≤ g → stripFuel u f t = stripFuel u g t := by
  intro f
  induction f with
  | zero =>
    intro g t hf _
    have : t = [] := List.eq_nil_of_length_eq_zero (Nat.le_zero.mp hf)
    subst this
    cases g <;> simp [stripFuel]
  | succ f ih =>
    intro g t hf hg
    match t with
    | [] => cases g <;> simp [stripFuel]
    | c :: ts =>
      match g with
      | 0 => exact absurd hg (by simp)
      | g + 1 =>
        simp only [stripFuel]
        by_cases h : u.isPrefixOf (c :: ts)
        · simp only [h, if_pos]
          have hts : ts.length ≤ f := Nat.succ_le_succ_iff.mp hf
          have hts' : ts.length ≤ g := Nat.succ_le_succ_iff.mp hg
          exact ih g _ (le_trans (by simp [List.length_drop]) hts)
            (le_trans (by simp [List.length_drop]) hts')
        · simp only [h, if_neg]
          have := ih g ts (Nat.succ_le_succ_iff.mp hf) (Nat.succ_le_succ_iff.mp hg)
          simp [this]

theorem stripFuel_of_not_occurs (u : List Char) :
    ∀ fuel t, t.length ≤ fuel → ¬ u <:+: t → stripFuel u fuel t = t := by
  intro fuel
  induction fuel with
  | zero => intro t _ _; simp [stripFuel]
  | succ f ih =>
    intro t hf hocc
    match t with
    | [] => simp [stripFuel]
    | c :: ts =>
      simp only [stripFuel]
      have hpre : ¬ u.isPrefixOf (c :: ts) := by
        intro hp
        exact hocc (List.IsPrefix.isInfix (List.isPrefixOf_iff_prefix.mp hp))
      simp only [hpre, if_neg]
      have : ¬ u <:+: ts := fun h => hocc (List.infix_cons h)
      simp [ih ts (Nat.succ_le_succ_iff.mp hf) this]

theorem stripFuel_length_lt (u : List Char) (hu : u ≠ []) :
    ∀ fuel t, t.length ≤ fuel → u <:+: t → (stripFuel u fuel t).length < t.length := by
  intro fuel
  induction fuel with
  | zero =>
    intro t hf hocc
    have : t = [] := List.eq_nil_of_length_eq_zero (Nat.le_zero.mp hf)
    subst this
    exact absurd (List.infix_nil.mp hocc) hu
  | succ f ih =>
    intro t hf hocc
    match t with
    | [] => exact absurd (List.infix_nil.mp hocc) hu
    | c :: ts =>
      simp only [stripFuel]
      by_cases h : u.isPrefixOf (c :: ts)
      · simp only [h, if_pos]
        have h1 : (stripFuel u f (ts.drop (u.length - 1))).length
            ≤ (ts.drop (u.length - 1)).length := stripFuel_length_le u f _
        have h2 : (ts.drop (u.length - 1)).length ≤ ts.length := by
          simp [List.length_drop]
        calc (stripFuel u f (ts.drop (u.length - 1))).length
            ≤ ts.length := le_trans h1 h2
          _ < (c :: ts).length := by simp
      · simp only [h, if_neg, List.length_cons]
        have hts : u <:+: ts := by
          rcases List.infix_cons_iff.mp hocc with hp | hi
          · exact absurd (List.isPrefixOf_iff_prefix.mpr hp) h
          · exact hi
        exact Nat.succ_lt_succ (ih ts (Nat.succ_le_succ_iff.mp hf) hts)

theorem replaceDel_of_not_occurs (u t : List Char) (h : ¬ u <:+: t) :
    replaceDel u t = t := by
  unfold replaceDel
  by_cases hu : u = []
  · simp [hu]
  · simp only [hu, if_neg]
    exact stripFuel_of_not_occurs u t.length t (le_refl _) h

theorem replaceDel_length_le (u t : List Char) :
    (replaceDel u t).length ≤ t.length := by
  unfold replaceDel
  by_cases hu : u = []
  · simp [hu]
  · simp only [hu, if_neg]
    exact stripFuel_length_le u t.length t

theorem replaceDel_length_lt (u t : List Char) (hu : u ≠ []) (h : u <:+: t) :
    (replaceDel u t).length < t.length := by
  unfold replaceDel
  simp only [hu, if_neg]
  exact stripFuel_length_lt u hu t.length t (le_refl _) h

theorem preprocess_file_content_eq (t : List Char) :
    preprocess_file_content t =
      replaceDel velos_url.data (replaceDel rseries_url.data t) := rfl

theorem urls_to_remove_ne_nil : ∀ u ∈ urls_to_remove, u ≠ [] := by decide

/-- The transform leaves a text unchanged exactly when no configured
strip-substring occurs in it; equivalently, a text is occurrence-free iff it is
a fixpoint of the transform. -/
theorem preprocess_fixpoint_iff (x : List Char) :
    (∀ u ∈ urls_to_remove, ¬ u <:+: x) ↔ preprocess_file_content x = x := by
  constructor
  · intro h
    have h1 : ¬ rseries_url.data <:+: x := h _ (by simp [urls_to_remove])
    have h2 : ¬ velos_url.data <:+: x := h _ (by simp [urls_to_remove])
    rw [preprocess_file_content_eq, replaceDel_of_not_occurs _ _ h1,
      replaceDel_of_not_occurs _ _ h2]
  · intro hfix u hu hocc
    have hlt : (preprocess_file_content x).length < x.length := by
      by_cases h1 : rseries_url.data <:+: x
      · have l1 : (replaceDel rseries_url.data x).length < x.length :=
          replaceDel_length_lt _ _ (by decide) h1
        calc (preprocess_file_content x).length
            ≤ (replaceDel rseries_url.data x).length := by
              rw [preprocess_file_content_eq]; exact replaceDel_length_le _ _
          _ < x.length := l1
      · have e1 : replaceDel rseries_url.data x = x :=
          replaceDel_of_not_occurs _ _ h1
        have hu2 : u = velos_url.data := by
          rcases (by simpa [urls_to_remove] using hu : u = rseries_url.data ∨
            u = velos_url.data) with h | h
        
          · exact absurd (h ▸ hocc) h1
          · exact h
        rw [preprocess_file_content_eq, e1]
        exact replaceDel_length_lt _ _ (by decide) (hu2 ▸ hocc)
    rw [hfix] at hlt
    exact absurd hlt (lt_irrefl _)

set_option maxRecDepth 8000 in
/-- C2, refuted as stated: an input in which the velos URL is flanked by its
own last-character-deleted prefix and a final slash still contains the velos
URL after the transform — deleting the explicit occurrence splices the
flanking fragments into a new occurrence. -/
theorem C2_counterexample :
    velos_url.data ∈ urls_to_remove ∧
      velos_url.data <:+: preprocess_file_content
        (velos_url.data.dropLast ++ velos_url.data ++ ['/']) :=
  ⟨by decide, by decide⟩

/-- C2 (amended): for every text file processed by the normalizer, the output
of the link-stripping transform contains zero occurrences of any configured
strip-substring if and only if the transform fixes its own output (one more
pass changes nothing); the unconditional zero-occurrence guarantee fails
because a deletion can splice a prefix and a suffix of a strip-substring into
a fresh occurrence. -/
theorem C2_zero_occurrences_iff_fixpoint (t : List Char) :
    (∀ u ∈ urls_to_remove, ¬ u <:+: preprocess_file_content t) ↔
      preprocess_file_content (preprocess_file_content t) =
        preprocess_file_content t :=
  preprocess_fixpoint_iff (preprocess_file_content t)

/-- Witness for `C2_zero_occurrences_iff_fixpoint` at the concrete input
"doc text": the transform fixes the output and the velos URL does not occur. -/
theorem C2_zero_occurrences_iff_fixpoint_witness :
    preprocess_file_content (preprocess_file_content "doc text".data) =
        preprocess_file_content "doc text".data ∧
      ¬ velos_url.data <:+: preprocess_file_content "doc text".data :=
  ⟨by decide, (C2_zero_occurrences_iff_fixpoint "doc text".data).mpr (by decide)
    velos_url.data (by decide)⟩

set_option maxRecDepth 8000 in
/-- C1, refuted as stated (order of the list is NOT immaterial): on the input
where the rseries URL is flanked by the velos URL's last-character-deleted
prefix and a final slash, stripping in list order (rseries first) yields the
empty text, while stripping in the reverse order leaves the velos URL. -/
theorem C1_counterexample :
    preprocess_file_content (velos_url.data.dropLast ++ rseries_url.data ++ ['/']) ≠
      urls_to_remove.reverse.foldl (fun c u => replaceDel u c)
        (velos_url.data.dropLast ++ rseries_url.data ++ ['/']) := by decide

/-- C1 (amended): the strip list is intended as an ordered collection of
exactly two independent literal URL substrings (the source's list literal is a
Python syntax error, so the list is modelled from the spec); the transform
applies exact empty-string substring replacement for each substring in list
order, and each pass acts independently on its own substring — it is the
identity precisely when its substring is absent and strictly shortens the text
when its substring occurs.  The passes need not commute, so the order of the
list is observable. -/
theorem C1_strip_list_independent_substrings :
    urls_to_remove = [rseries_url.data, velos_url.data] ∧
    (∀ t : List Char, preprocess_file_content t =
        replaceDel velos_url.data (replaceDel rseries_url.data t)) ∧
    (∀ t : List Char, ∀ u ∈ urls_to_remove, ¬ u <:+: t → replaceDel u t = t) ∧
    (∀ t : List Char, ∀ u ∈ urls_to_remove, u <:+: t →
        (replaceDel u t).length < t.length) := by
  refine ⟨rfl, fun t => rfl, ?_, ?_⟩
  · intro t u _ h
    exact replaceDel_of_not_occurs u t h
  · intro t u hu h
    exact replaceDel_length_lt u t (urls_to_remove_ne_nil u hu) h

/-- Witness for `C1_strip_list_independent_substrings` at a concrete input:
the rseries URL does not occur in "doc", so that pass is the identity. -/
theorem C1_strip_list_independent_substrings_witness :
    rseries_url.data ∈ urls_to_remove ∧
      ¬ rseries_url.data <:+: "doc".data ∧
      replaceDel rseries_url.data "doc".data = "doc".data :=
  ⟨by decide, by decide, C1_strip_list_independent_substrings.2.2.1 "doc".data
    rseries_url.data (by decide) (by decide)⟩

theorem processEntry_fst {a b : String × FsNode}
    (h : processEntry a = some b) : b.1 = a.1 := by
  obtain ⟨n, x⟩ := a
  cases x with
  | file c =>
    simp only [processEntry] at h
    split at h
    · injection h with h'; rw [← h']
    · split at h
      · injection h with h'; rw [← h']
      · exact absurd h (by simp)
  | dir es =>
    simp only [processEntry] at h
    split at h
    · injection h with h'; rw [← h']
    · exact absurd h (by simp)

theorem processEntry_excluded (n : String) (x : FsNode)
    (hn : n = "_build" ∨ n = "__pycache__") : processEntry (n, x) = none := by
  have hsuf : pathSuffix n = "" := by
    rcases hn with h | h <;> subst h <;> decide
  cases x with
  | file c => simp [processEntry, hsuf]
  | dir es =>
    rcases hn with h | h <;> subst h <;> simp [processEntry]

/-- C7: for every top-level entry of a source documentation directory: a
`.txt` file is copied with content identical to the input; a subdirectory
whose name is not in the exclusion set is copied recursively in full
(the whole subtree appears verbatim in the target); and a subdirectory named
like an excluded cache directory (`_build`, `__pycache__`) is not copied into
the normalized workspace under any content. -/
theorem C7_normalizer_toplevel_entries (es : List (String × FsNode))
    (repo_name name : String) :
    (∀ c : RawContent, pathSuffix name = ".txt" →
        (name, FsNode.file c) ∈ es →
        (name, FsNode.file c) ∈ process_sphinx_docs es repo_name) ∧
    (∀ sub : List (String × FsNode), name ∉ ["_build", "__pycache__"] →
        (name, FsNode.dir sub) ∈ es →
        (name, FsNode.dir sub) ∈ process_sphinx_docs es repo_name) ∧
    (name = "_build" ∨ name = "__pycache__" →
        ∀ node : FsNode, (name, node) ∉ process_sphinx_docs es repo_name) := by
  refine ⟨?_, ?_, ?_⟩
  · intro c hsuf hmem
    apply List.mem_append_left
    refine List.mem_filterMap.mpr ⟨(name, FsNode.file c), hmem, ?_⟩
    simp [processEntry, hsuf]
  · intro sub hname hmem
    apply List.mem_append_left
    refine List.mem_filterMap.mpr ⟨(name, FsNode.dir sub), hmem, ?_⟩
    simp [processEntry, hname]
  · intro hname node hmem
    rcases List.mem_append.mp hmem with hf | hc
    · obtain ⟨a, _, hfa⟩ := List.mem_filterMap.mp hf
      have hfst : name = a.1 := processEntry_fst hfa
      have : processEntry (a.1, a.2) = none :=
        processEntry_excluded a.1 a.2 (hfst ▸ hname)
      rw [this] at hfa
      exact Option.noConfusion hfa
    · have : name = "conf.py" := congrArg Prod.fst (List.mem_singleton.mp hc)
      rcases hname with h | h <;> rw [h] at this <;> exact absurd this (by decide)

/-- Witness for `C7_normalizer_toplevel_entries`: in a directory holding a
`.txt` file, an ordinary subdirectory, and a `_build` subdirectory, the first
two appear verbatim in the target and `_build` does not. -/
theorem C7_normalizer_toplevel_entries_witness :
    ("notes.txt", FsNode.file [Byteish.ch 'h']) ∈
      process_sphinx_docs
        [("notes.txt", FsNode.file [Byteish.ch 'h']),
          ("guide", FsNode.dir []), ("_build", FsNode.dir [])] "repo" ∧
    ("guide", FsNode.dir []) ∈
      process_sphinx_docs
        [("notes.txt", FsNode.file [Byteish.ch 'h']),
          ("guide", FsNode.dir []), ("_build", FsNode.dir [])] "repo" ∧
    ¬ ("_build", FsNode.dir []) ∈
      process_sphinx_docs
        [("notes.txt", FsNode.file [Byteish.ch 'h']),
          ("guide", FsNode.dir []), ("_build", FsNode.dir [])] "repo" :=
  ⟨(C7_normalizer_toplevel_entries _ "repo" "notes.txt").1 _ (by decide)
      (List.mem_cons_self _ _),
    (C7_normalizer_toplevel_entries _ "repo" "guide").2.1 _ (by decide)
      (List.mem_cons_of_mem _ (List.mem_cons_self _ _)),
    (C7_normalizer_toplevel_entries _ "repo" "_build").2.2 (Or.inl rfl) _⟩

/-- C8, refuted as stated: a text-like file whose raw content is a single
undecodable byte is read as the empty text — the byte is silently dropped,
not replaced with the substitution character U+FFFD (which `errors='replace'`
would produce). -/
theorem C8_counterexample :
    processEntry ("a.rst", FsNode.file [Byteish.und 255]) =
        some ("a.rst", FsNode.file []) ∧
      decodeIgnore [Byteish.und 255] ≠ ['�'] ∧
      decodeReplace [Byteish.und 255] = ['�'] :=
  ⟨rfl, by decide, rfl⟩

/-- C8 (amended): for every text-like file the normalizer reads, undecodable
byte sequences are tolerated by silently dropping them (`errors='ignore'`) —
the read never fails and decodable characters round-trip — but no
substitution character is inserted in their place. -/
theorem C8_undecodable_bytes_silently_dropped :
    (∀ xs ys : RawContent, ∀ b : Nat,
        decodeIgnore (xs ++ Byteish.und b :: ys) = decodeIgnore (xs ++ ys)) ∧
    (∀ cs : List Char, decodeIgnore (encodeText cs) = cs) := by
  constructor
  · intro xs ys b
    simp [decodeIgnore]
  · intro cs
    induction cs with
    | nil => rfl
    | cons c cs ih =>
      simpa [decodeIgnore, encodeText] using ih

/-- C10: the link-stripping transform is applied exactly to the top-level
`.rst`/`.md` files; a non-excluded subdirectory is carried into the normalized
workspace as the identical subtree, so every file nested inside it keeps its
raw content verbatim (occurrences of the strip-substrings included), while a
top-level `.rst`/`.md` file is rewritten through the transform. -/
theorem C10_transform_only_toplevel (es : List (String × FsNode))
    (repo_name name : String) (sub : List (String × FsNode)) :
    (name ∉ ["_build", "__pycache__"] → (name, FsNode.dir sub) ∈ es →
      ((name, FsNode.dir sub) ∈ process_sphinx_docs es repo_name ∧
        ∀ fn : String, ∀ fc : RawContent, (fn, FsNode.file fc) ∈ sub →
          ∃ sub' : List (String × FsNode),
            (name, FsNode.dir sub') ∈ process_sphinx_docs es repo_name ∧
              (fn, FsNode.file fc) ∈ sub')) ∧
    (∀ fn : String, ∀ fc : RawContent, pathSuffix fn ∈ [".rst", ".md"] →
        (fn, FsNode.file fc) ∈ es →
        (fn, FsNode.file (encodeText (preprocess_file_content (decodeIgnore fc)))) ∈
          process_sphinx_docs es repo_name) := by
  constructor
  · intro hname hmem
    have hout : (name, FsNode.dir sub) ∈ process_sphinx_docs es repo_name := by
      apply List.mem_append_left
      refine List.mem_filterMap.mpr ⟨(name, FsNode.dir sub), hmem, ?_⟩
      simp [processEntry, hname]
    exact ⟨hout, fun fn fc hfc => ⟨sub, hout, hfc⟩⟩
  · intro fn fc hsuf hmem
    apply List.mem_append_left
    refine List.mem_filterMap.mpr ⟨(fn, FsNode.file fc), hmem, ?_⟩
    simp [processEntry, hsuf]

/-- Witness for `C10_transform_only_toplevel`: a subdirectory holding a file
whose text is exactly the velos URL is copied verbatim (the URL survives),
while a top-level `.rst` file with the same text is rewritten to empty. -/
theorem C10_transform_only_toplevel_witness :
    ("guide", FsNode.dir [("x.rst", FsNode.file (encodeText velos_url.data))]) ∈
      process_sphinx_docs
        [("guide", FsNode.dir [("x.rst", FsNode.file (encodeText velos_url.data))]),
          ("top.rst", FsNode.file (encodeText velos_url.data))] "repo" ∧
    ("top.rst",
        FsNode.file (encodeText (preprocess_file_content
          (decodeIgnore (encodeText velos_url.data))))) ∈
      process_sphinx_docs
        [("guide", FsNode.dir [("x.rst", FsNode.file (encodeText velos_url.data))]),
          ("top.rst", FsNode.file (encodeText velos_url.data))] "repo" :=
  ⟨((C10_transform_only_toplevel _ "repo" "guide" _).1 (by decide)
      (List.mem_cons_self _ _)).1,
    (C10_transform_only_toplevel _ "repo" "guide"
        [("x.rst", FsNode.file (encodeText velos_url.data))]).2 "top.rst" _
      (by decide) (List.mem_cons_of_mem _ (List.mem_cons_self _ _))⟩

theorem strOccurs_self (s : String) : strOccurs s s :=
  List.infix_rfl

theorem strOccurs_append_right {n a : String} (b : String) (h : strOccurs n a) :
    strOccurs n (a ++ b) := by
  obtain ⟨s, t, hst⟩ := h
  exact ⟨s, t ++ b.data, by
    have hab : (a ++ b).data = a.data ++ b.data := rfl
    rw [hab, ← hst]
    simp⟩

theorem strOccurs_append_left {n b : String} (a : String) (h : strOccurs n b) :
    strOccurs n (a ++ b) := by
  obtain ⟨s, t, hst⟩ := h
  exact ⟨a.data ++ s, t, by
    have hab : (a ++ b).data = a.data ++ b.data := rfl
    rw [hab, ← hst]
    simp⟩

theorem strOccurs_repoListHtml {n : String} {r : RepoConfig}
    {rs : List RepoConfig} (hmem : r ∈ rs) (h : strOccurs n (repoEntryHtml r)) :
    strOccurs n (repoListHtml rs) := by
  induction rs with
  | nil => cases hmem
  | cons a l ih =>
    rcases List.mem_cons.mp hmem with rfl | h'
    · exact strOccurs_append_right _ h
    · exact strOccurs_append_left _ (ih h')

theorem strOccurs_index_of_entry {n : String} {r : RepoConfig}
    {repos : List RepoConfig} (now : String) (hmem : r ∈ repos)
    (h : strOccurs n (repoEntryHtml r)) :
    strOccurs n (create_index_page repos now) := by
  unfold create_index_page
  exact strOccurs_append_right _ (strOccurs_append_right _
    (strOccurs_append_right _
      (strOccurs_append_left _ (strOccurs_repoListHtml hmem h))))

theorem processRepo_not_built_of_type (w : World) (r : RepoConfig)
    (h : r.type.getD "sphinx" ≠ "sphinx") : processRepo w r ≠ Outcome.builtOk := by
  unfold processRepo
  cases fetch_repository w r with
  | none => simp
  | some p => simp [h]

theorem processRepo_built_imp (w : World) (r : RepoConfig)
    (h : processRepo w r = Outcome.builtOk) :
    ((fetch_repository w r).isSome &&
        decide (r.type.getD "sphinx" = "sphinx")) = true := by
  unfold processRepo at h
  cases hf : fetch_repository w r with
  | none => rw [hf] at h; simp at h
  | some p =>
    rw [hf] at h
    by_cases ht : r.type.getD "sphinx" = "sphinx"
    · simp [ht]
    · rw [if_neg ht] at h; simp at h

theorem htmlDirCreated_of_success (w : World) (repos : List RepoConfig)
    (h : repos.countP (fun r => decide (processRepo w r = Outcome.builtOk)) ≠ 0) :
    htmlDirCreated w repos = true := by
  obtain ⟨r, hr, hp⟩ := List.countP_pos_iff.mp (Nat.pos_of_ne_zero h)
  exact List.any_eq_true.mpr
    ⟨r, hr, processRepo_built_imp w r (of_decide_eq_true hp)⟩

/-- C3: the run exits with status 0 iff at least one repository built
successfully and with status 1 iff zero did — also through the crash path: a
run with zero build attempts dies writing the landing page (uncaught
`FileNotFoundError`, process exit 1), and such a run always has zero
successes.  The success counter counts exactly the repositories whose loop
iteration ended in a successful build. -/
theorem C3_exit_status (w : World) (repos : List RepoConfig) :
    ((build_all w repos).exitCode = 0 ↔ 1 ≤ (build_all w repos).success_count) ∧
    ((build_all w repos).exitCode = 1 ↔ (build_all w repos).success_count = 0) ∧
    (build_all w repos).success_count =
      repos.countP (fun r => decide (processRepo w r = Outcome.builtOk)) := by
  refine ⟨?_, ?_, rfl⟩ <;>
    simp only [build_all] <;>
    by_cases h :
      repos.countP (fun r => decide (processRepo w r = Outcome.builtOk)) = 0
  · simp [h]
  · have hh := htmlDirCreated_of_success w repos h
    simp [h, hh, Nat.one_le_iff_ne_zero]
  · simp [h]
  · have hh := htmlDirCreated_of_success w repos h
    simp [h, hh, Nat.one_le_iff_ne_zero]

/-- C4, the code bug at the failing input: the claim (and the spec) say the
landing page is generated unconditionally, but `create_index_page` opens
`_build/html/index.html` for writing (`build_docs.py` lines 279-280) without
creating `_build/html`, whose only creator is `build_sphinx_docs` (line 157).
For a configuration whose single repository has type "unsupported-other",
no repository reaches `build_sphinx_docs`, so the write raises
`FileNotFoundError` (`Except.error` in the model): no landing page is
produced, and the run exits 1 via the uncaught exception. -/
theorem C4_index_write_crashes (w : World) (name url : String) :
    (build_all w
        [{ name := name, url := url, type := some "unsupported-other" }]).indexPage
        = Except.error "FileNotFoundError: _build/html/index.html" ∧
      (build_all w
        [{ name := name, url := url, type := some "unsupported-other" }]).exitCode
        = 1 := by
  have hhtml : htmlDirCreated w
      [{ name := name, url := url, type := some "unsupported-other" }] = false := by
    simp [htmlDirCreated]
  constructor <;> simp [build_all, hhtml]

/-- C5: the fetch operation never raises to its caller: a clone exception is
caught and reported as `none`; a successful clone whose configured
documentation subdirectory is absent is likewise reported as `none`; a `none`
fetch makes that repository's outcome `fetchFailed`; and the loop in
`build_all` still processes every other configured repository. -/
theorem C5_fetch_never_fatal (w : World) (r : RepoConfig) :
    (∀ msg : String, clone_from w r = Except.error msg →
        fetch_repository w r = none) ∧
    (w.docDirExists r = false → fetch_repository w r = none) ∧
    (fetch_repository w r = none → processRepo w r = Outcome.fetchFailed) ∧
    (∀ pre post : List RepoConfig,
      (build_all w (pre ++ r :: post)).outcomes =
        (build_all w pre).outcomes ++
          ((r, processRepo w r) :: (build_all w post).outcomes)) := by
  refine ⟨?_, ?_, ?_, ?_⟩
  · intro msg h
    unfold fetch_repository
    rw [h]
  · intro h
    unfold fetch_repository
    cases clone_from w r with
    | error e => rfl
    | ok u => cases u; simp [h]
  · intro h
    unfold processRepo
    rw [h]
  · intro pre post
    simp [build_all]

/-- Witness for `C5_fetch_never_fatal`: a repository whose clone fails is
fetched as `none` and its outcome is `fetchFailed`. -/
theorem C5_fetch_never_fatal_witness :
    fetch_repository
        { cloneOk := fun _ => false, docDirExists := fun _ => false,
          sphinxExit0 := fun _ => false, now := "TS" }
        { name := "repoB", url := "http://bad" } = none ∧
      processRepo
        { cloneOk := fun _ => false, docDirExists := fun _ => false,
          sphinxExit0 := fun _ => false, now := "TS" }
        { name := "repoB", url := "http://bad" } = Outcome.fetchFailed :=
  ⟨(C5_fetch_never_fatal _ _).1 "clone failed" rfl,
    (C5_fetch_never_fatal _ _).2.2.1
      ((C5_fetch_never_fatal _ _).1 "clone failed" rfl)⟩

/-- C6 (amended): the landing page lists every configured repository —
regardless of build outcome — as a link to `{name}/index.html`, annotated with
its declared documentation type, with the annotation defaulting to "unknown"
(not "sphinx") when the descriptor omits `type`, plus the generation
timestamp. -/
theorem C6_index_lists_every_repo (repos : List RepoConfig) (now : String) :
    (∀ r ∈ repos,
      strOccurs ("<a href=\"" ++ r.name ++ "/index.html\">" ++ r.name ++ "</a>")
          (create_index_page repos now) ∧
        strOccurs ("Type: " ++ r.type.getD "unknown")
          (create_index_page repos now)) ∧
    strOccurs now (create_index_page repos now) := by
  constructor
  · intro r hmem
    constructor
    · refine strOccurs_index_of_entry now hmem ?_
      exact strOccurs_append_right _ (strOccurs_append_left _ (strOccurs_self _))
    · refine strOccurs_index_of_entry now hmem ?_
      exact strOccurs_append_left _
        (strOccurs_append_right _ (strOccurs_append_left _ (strOccurs_self _)))
  · unfold create_index_page
    exact strOccurs_append_right _ (strOccurs_append_left _ (strOccurs_self _))

/-- Witness for `C6_index_lists_every_repo`: a singleton configuration with an
explicit type "mkdocs" is listed with its link, its annotation, and the
timestamp. -/
theorem C6_index_lists_every_repo_witness :
    strOccurs ("<a href=\"" ++ "repoA" ++ "/index.html\">" ++ "repoA" ++ "</a>")
        (create_index_page
          [{ name := "repoA", url := "http://x", type := some "mkdocs" }] "TS") ∧
      strOccurs ("Type: " ++ "mkdocs")
        (create_index_page
          [{ name := "repoA", url := "http://x", type := some "mkdocs" }] "TS") ∧
      strOccurs "TS"
        (create_index_page
          [{ name := "repoA", url := "http://x", type := some "mkdocs" }] "TS") :=
  ⟨((C6_index_lists_every_repo
        [{ name := "repoA", url := "http://x", type := some "mkdocs" }] "TS").1
      { name := "repoA", url := "http://x", type := some "mkdocs" }
      (List.mem_singleton.mpr rfl)).1,
    ((C6_index_lists_every_repo
        [{ name := "repoA", url := "http://x", type := some "mkdocs" }] "TS").1
      { name := "repoA", url := "http://x", type := some "mkdocs" }
      (List.mem_singleton.mpr rfl)).2,
    (C6_index_lists_every_repo
        [{ name := "repoA", url := "http://x", type := some "mkdocs" }] "TS").2⟩

set_option maxRecDepth 4000 in
/-- C6, refuted as stated: for a descriptor that omits `type`, the landing
page annotation reads "Type: unknown", not "Type: sphinx" — the index
generator defaults the annotation to "unknown" (`repo.get('type', 'unknown')`)
even though the build dispatch defaults the type to "sphinx"; the rendered
list item for the repository nowhere contains "Type: sphinx". -/
theorem C6_counterexample :
    strOccurs "Type: unknown"
        (create_index_page [{ name := "repoA", url := "http://x" }] "TS") ∧
      ¬ strOccurs "Type: sphinx"
        (repoEntryHtml { name := "repoA", url := "http://x" }) := by
  constructor
  · exact strOccurs_index_of_entry "TS" (List.mem_singleton.mpr rfl) (by decide)
  · decide

/-- C9: for a configured repository whose source is unreachable (fetch returns
`none`), the per-repository output directory `_build/html/{name}` is never
created during the run — given that no other configured repository shares its
name (names are unique directory keys in the data model). -/
theorem C9_unreachable_no_output_dir (w : World) (repos : List RepoConfig)
    (r : RepoConfig) (hfetch : fetch_repository w r = none)
    (huniq : ∀ r' ∈ repos, r'.name = r.name → r' = r) :
    ("_build/html/" ++ r.name) ∉ (build_all w repos).createdHtmlDirs := by
  intro hmem
  simp only [build_all] at hmem
  obtain ⟨r', hr', heq⟩ := List.mem_map.mp hmem
  have hname : r'.name = r.name := by
    have hdata := congrArg String.data heq
    have h2 : ("_build/html/" : String).data ++ r'.name.data =
        ("_build/html/" : String).data ++ r.name.data := hdata
    exact String.ext (List.append_cancel_left h2)
  have hmem' : r' ∈ repos := List.mem_of_mem_filter hr'
  have hpass := List.of_mem_filter hr'
  have : r' = r := huniq r' hmem' hname
  subst this
  rw [hfetch] at hpass
  simp at hpass

/-- Witness for `C9_unreachable_no_output_dir`: with an unreachable clone,
`_build/html/repoB` is not among the created output directories. -/
theorem C9_unreachable_no_output_dir_witness :
    ("_build/html/" ++ "repoB") ∉
      (build_all
        { cloneOk := fun _ => false, docDirExists := fun _ => false,
          sphinxExit0 := fun _ => false, now := "TS" }
        [{ name := "repoB", url := "http://bad" }]).createdHtmlDirs :=
  C9_unreachable_no_output_dir _ _ { name := "repoB", url := "http://bad" } rfl
    (fun _ h _ => List.mem_singleton.mp h)
